import Mathlib

/-! Shallow embedding of the transaction-processing engine in src/main.rs.
Amounts (f32 in the source, rounded to four fractional digits on ingestion)
are embedded as exact integers counting fixed-point units of one ten-thousandth:
the engine only ever adds, subtracts and compares amounts, so this is the
exact-arithmetic abstraction of the decimal amounts. Client and transaction ids
(u16 / u32) are embedded as Nat, since the engine only compares them for
equality.
The assert! statements in apply_resolve and apply_chargeback are modelled by
Option: a result of none models the process aborting on a failed assertion. -/

namespace Transact

/-- Client record: mirrors struct Client in src/main.rs. -/
structure Client where
  id : Nat
  available : ℤ
  held : ℤ
  total : ℤ
  locked : Bool
deriving DecidableEq

/-- The five transaction variants: mirrors enum Transaction in src/main.rs. -/
inductive Transaction where
  | DEPOSIT (client : Nat) (tx : Nat) (amount : ℤ)
  | WITHDRAWAL (client : Nat) (tx : Nat) (amount : ℤ)
  | DISPUTE (client : Nat) (tx : Nat)
  | RESOLVE (client : Nat) (tx : Nat)
  | CHARGEBACK (client : Nat) (tx : Nat)
deriving DecidableEq

/-- The mutable state threaded through process_transaction: the client ledger,
the disputable journal (called operations / transactions in the source), and
the dispute registry (called disputes in the source). -/
structure EngineState where
  clients : List Client
  operations : List Transaction
  disputes : List Transaction
deriving DecidableEq

/-- Mirrors find_client_by_id: first client whose id matches. -/
def findClientById (clients : List Client) (clientId : Nat) : Option Client :=
  clients.find? (fun c => c.id == clientId)

/-- Replacement for the mutation through the &mut Client returned by
find_client_by_id: replaces the first client whose id matches. -/
def setFirstClient : List Client → Nat → Client → List Client
  | [], _, _ => []
  | c :: cs, clientId, newCl =>
      if c.id == clientId then newCl :: cs else c :: setFirstClient cs clientId newCl

/-- Mirrors is_same_tx_id. -/
def isSameTxId (t : Transaction) (transId : Nat) : Bool :=
  match t with
  | .DEPOSIT _ listTransId _ => listTransId == transId
  | .WITHDRAWAL _ listTransId _ => listTransId == transId
  | _ => false

/-- Mirrors find_operation_by_id: first entry whose tx id matches. -/
def findOperationById (transactions : List Transaction) (transId : Nat) : Option Transaction :=
  transactions.find? (fun tx => isSameTxId tx transId)

/-- Mirrors remove_operation_by_id: removes the first matching entry only. -/
def removeOperationById : List Transaction → Nat → List Transaction
  | [], _ => []
  | t :: ts, transId =>
      if isSameTxId t transId then ts else t :: removeOperationById ts transId

/-- Mirrors apply_dispute: returns the success flag together with the
(possibly) updated client. -/
def applyDispute (client : Client) (transaction : Transaction) : Bool × Client :=
  match transaction with
  | .DEPOSIT clId _ txAmount =>
      if clId ≠ client.id then (false, client)
      else if client.locked then (false, client)
      else if client.available < txAmount then (false, client)
      else (true, { client with
        available := client.available - txAmount,
        held := client.held + txAmount })
  | .WITHDRAWAL clId _ txAmount =>
      if clId ≠ client.id then (false, client)
      else if client.locked then (false, client)
      else (true, { client with
        held := client.held + txAmount,
        total := client.total + txAmount })
  | _ => (false, client)

/-- Mirrors apply_resolve; none models a failed assert! (process panic). -/
def applyResolve (client : Client) (transaction : Transaction) : Option (Bool × Client) :=
  match transaction with
  | .DEPOSIT clId _ txAmount =>
      if clId ≠ client.id then some (false, client)
      else if client.locked then some (false, client)
      else if client.held < txAmount then none
      else some (true, { client with
        held := client.held - txAmount,
        available := client.available + txAmount })
  | .WITHDRAWAL clId _ txAmount =>
      if clId ≠ client.id then some (false, client)
      else if client.locked then some (false, client)
      else if client.held < txAmount then none
      else if client.total < txAmount then none
      else some (true, { client with
        held := client.held - txAmount,
        total := client.total - txAmount })
  | _ => some (false, client)

/-- Mirrors apply_chargeback; none models a failed assert! (process panic).
On every success path the source sets client.locked = true after the match. -/
def applyChargeback (client : Client) (transaction : Transaction) : Option (Bool × Client) :=
  match transaction with
  | .DEPOSIT clId _ txAmount =>
      if clId ≠ client.id then some (false, client)
      else if client.locked then some (false, client)
      else if client.held < txAmount then none
      else if client.total < txAmount then none
      else some (true, { client with
        held := client.held - txAmount,
        total := client.total - txAmount,
        locked := true })
  | .WITHDRAWAL clId _ txAmount =>
      if clId ≠ client.id then some (false, client)
      else if client.locked then some (false, client)
      else if client.held < txAmount then none
      else some (true, { client with
        held := client.held - txAmount,
        available := client.available + txAmount,
        locked := true })
  | _ => some (false, client)

/-- Mirrors process_transaction. The early return on a locked client in the
DEPOSIT branch skips the journal push; the DISPUTE branch removes the matched
journal entry whether or not apply_dispute succeeded. -/
def processTransaction (transaction : Transaction) (s : EngineState) : Option EngineState :=
  match transaction with
  | .DEPOSIT clientId txId amount =>
      match findClientById s.clients clientId with
      | some cl =>
          if cl.locked then some s
          else some { s with
            clients := setFirstClient s.clients clientId
              { cl with available := cl.available + amount, total := cl.total + amount },
            operations := s.operations ++ [.DEPOSIT clientId txId amount] }
      | none =>
          some { s with
            clients := s.clients ++
              [{ id := clientId, available := amount, held := 0, total := amount, locked := false }],
            operations := s.operations ++ [.DEPOSIT clientId txId amount] }
  | .WITHDRAWAL clientId txId amount =>
      match findClientById s.clients clientId with
      | some cl =>
          if cl.locked then some s
          else if cl.available < amount then some s
          else some { s with
            clients := setFirstClient s.clients clientId
              { cl with available := cl.available - amount, total := cl.total - amount },
            operations := s.operations ++ [.WITHDRAWAL clientId txId amount] }
      | none => some s
  | .DISPUTE clientId txId =>
      match findClientById s.clients clientId with
      | some cl =>
          match findOperationById s.operations txId with
          | some disputeTx =>
              let r := applyDispute cl disputeTx
              some { s with
                clients := setFirstClient s.clients clientId r.2,
                operations := removeOperationById s.operations txId,
                disputes := if r.1 then s.disputes ++ [disputeTx] else s.disputes }
          | none => some s
      | none => some s
  | .RESOLVE clientId txId =>
      match findClientById s.clients clientId with
      | some cl =>
          match findOperationById s.disputes txId with
          | some resolveTx =>
              match applyResolve cl resolveTx with
              | none => none
              | some r =>
                  some { s with
                    clients := setFirstClient s.clients clientId r.2,
                    disputes := if r.1 then removeOperationById s.disputes txId else s.disputes }
          | none => some s
      | none => some s
  | .CHARGEBACK clientId txId =>
      match findClientById s.clients clientId with
      | some cl =>
          match findOperationById s.disputes txId with
          | some chargebackTx =>
              match applyChargeback cl chargebackTx with
              | none => none
              | some r =>
                  some { s with
                    clients := setFirstClient s.clients clientId r.2,
                    disputes := if r.1 then removeOperationById s.disputes txId else s.disputes }
          | none => some s
      | none => some s

/-- One iteration of the loop body of process_transaction_list: run
process_transaction, then unconditionally push the raw transaction onto the
disputable journal (the push at the end of the loop in the source). -/
def stepList (s : EngineState) (t : Transaction) : Option EngineState :=
  (processTransaction t s).map (fun s1 => { s1 with operations := s1.operations ++ [t] })

/-- Mirrors the loop of process_transaction_list over already-parsed
transactions (records skipped by the string-level parsing never reach the
loop body and are therefore not part of the input list here). -/
def processTransactionList : List Transaction → EngineState → Option EngineState
  | [], s => some s
  | t :: ts, s =>
      match stepList s t with
      | some s1 => processTransactionList ts s1
      | none => none

/-- The initial state of a run of main: empty ledger, journal and registry. -/
def initialState : EngineState := ⟨[], [], []⟩

/-- A whole engine run as performed by main on a parsed input list. -/
def runEngine (lst : List Transaction) : Option EngineState :=
  processTransactionList lst initialState

/-- The client id of any transaction variant (first field in the source). -/
def clientOf : Transaction → Nat
  | .DEPOSIT c _ _ => c
  | .WITHDRAWAL c _ _ => c
  | .DISPUTE c _ => c
  | .RESOLVE c _ => c
  | .CHARGEBACK c _ => c

/-- Recognizer for the chargeback variant. -/
def isChargeback : Transaction → Bool
  | .CHARGEBACK _ _ => true
  | _ => false

/-! Basic lemmas about the lookup and update helpers. -/

theorem findClientById_mem {clients : List Client} {cid : Nat} {cl : Client}
    (h : findClientById clients cid = some cl) : cl ∈ clients :=
  List.mem_of_find?_eq_some h

theorem findClientById_id {clients : List Client} {cid : Nat} {cl : Client}
    (h : findClientById clients cid = some cl) : cl.id = cid := by
  have h2 := List.find?_some h
  simpa using h2

theorem findClientById_none {clients : List Client} {cid : Nat}
    (h : findClientById clients cid = none) : ∀ cl ∈ clients, cl.id ≠ cid := by
  intro cl hmem
  have h2 := List.find?_eq_none.mp h cl hmem
  simpa using h2

theorem setFirstClient_self {clients : List Client} {cid : Nat} {cl : Client}
    (h : findClientById clients cid = some cl) : setFirstClient clients cid cl = clients := by
  induction clients with
  | nil => simp [findClientById] at h
  | cons c cs ih =>
      by_cases hc : (c.id == cid) = true
      · have hcl : c = cl := by
          have h2 : findClientById (c :: cs) cid = some c := by
            simp only [findClientById]
            exact List.find?_cons_of_pos _ hc
          rw [h2] at h
          exact Option.some_inj.mp h
        subst hcl
        simp [setFirstClient, hc]
      · have htail : findClientById cs cid = some cl := by
          have h2 : findClientById (c :: cs) cid = findClientById cs cid := by
            simp only [findClientById]
            exact List.find?_cons_of_neg _ (by simpa using hc)
          rw [h2] at h
          exact h
        simp only [setFirstClient]
        rw [if_neg (by simpa using hc)]
        rw [ih htail]

theorem mem_setFirstClient {clients : List Client} {cid : Nat} {newCl cl1 : Client}
    (h : cl1 ∈ setFirstClient clients cid newCl) : cl1 ∈ clients ∨ cl1 = newCl := by
  induction clients with
  | nil => simp [setFirstClient] at h
  | cons c cs ih =>
      simp only [setFirstClient] at h
      by_cases hc : (c.id == cid) = true
      · rw [if_pos hc] at h
        rcases List.mem_cons.mp h with h1 | h1
        · exact Or.inr h1
        · exact Or.inl (List.mem_cons_of_mem _ h1)
      · rw [if_neg hc] at h
        rcases List.mem_cons.mp h with h1 | h1
        · exact Or.inl (by simp [h1])
        · rcases ih h1 with h2 | h2
          · exact Or.inl (List.mem_cons_of_mem _ h2)
          · exact Or.inr h2

theorem map_id_setFirstClient {clients : List Client} {cid : Nat} {newCl : Client}
    (hid : newCl.id = cid) :
    (setFirstClient clients cid newCl).map Client.id = clients.map Client.id := by
  induction clients with
  | nil => simp [setFirstClient]
  | cons c cs ih =>
      simp only [setFirstClient]
      by_cases hc : (c.id == cid) = true
      · rw [if_pos hc]
        have : c.id = cid := by simpa using hc
        simp [hid, this]
      · rw [if_neg hc]
        simp [ih]

theorem filter_setFirstClient {clients : List Client} {cid c : Nat} {newCl : Client}
    (hid : newCl.id = cid) (hne : cid ≠ c) :
    (setFirstClient clients cid newCl).filter (fun x => x.id == c) =
      clients.filter (fun x => x.id == c) := by
  induction clients with
  | nil => simp [setFirstClient]
  | cons cl cs ih =>
      simp only [setFirstClient]
      by_cases hc : (cl.id == cid) = true
      · rw [if_pos hc]
        have hcl : cl.id = cid := by simpa using hc
        have h1 : (newCl.id == c) = false := by simp [hid, hne]
        have h2 : (cl.id == c) = false := by simp [hcl, hne]
        simp [List.filter_cons, h1, h2]
      · rw [if_neg hc]
        simp [List.filter_cons, ih]

/-! Lemmas about the dispute-family effect helpers. -/

theorem applyDispute_id (cl : Client) (t : Transaction) :
    ((applyDispute cl t).2).id = cl.id := by
  cases t <;> simp only [applyDispute] <;> (try split_ifs) <;> rfl

theorem applyDispute_locked_field (cl : Client) (t : Transaction) :
    ((applyDispute cl t).2).locked = cl.locked := by
  cases t <;> simp only [applyDispute] <;> (try split_ifs) <;> rfl

theorem applyDispute_locked (cl : Client) (t : Transaction) (h : cl.locked = true) :
    applyDispute cl t = (false, cl) := by
  cases t <;> simp only [applyDispute] <;> (try split_ifs) <;> simp_all

theorem applyDispute_sum (cl : Client) (t : Transaction)
    (h : cl.total = cl.available + cl.held) :
    ((applyDispute cl t).2).total =
      ((applyDispute cl t).2).available + ((applyDispute cl t).2).held := by
  cases t <;> simp only [applyDispute] <;> (try split_ifs) <;> (try simp only []) <;> omega

theorem applyResolve_id {cl : Client} {t : Transaction} {r : Bool × Client}
    (h : applyResolve cl t = some r) : (r.2).id = cl.id := by
  cases t <;> simp only [applyResolve] at h <;> (try split_ifs at h) <;> first
    | exact Option.noConfusion h
    | (injection h with h2; rw [← h2])

theorem applyResolve_locked_field {cl : Client} {t : Transaction} {r : Bool × Client}
    (h : applyResolve cl t = some r) : (r.2).locked = cl.locked := by
  cases t <;> simp only [applyResolve] at h <;> (try split_ifs at h) <;> first
    | exact Option.noConfusion h
    | (injection h with h2; rw [← h2])

theorem applyResolve_locked (cl : Client) (t : Transaction) (h : cl.locked = true) :
    applyResolve cl t = some (false, cl) := by
  cases t <;> simp only [applyResolve] <;> (try split_ifs) <;> simp_all

theorem applyResolve_sum {cl : Client} {t : Transaction} {r : Bool × Client}
    (h : applyResolve cl t = some r) (hs : cl.total = cl.available + cl.held) :
    (r.2).total = (r.2).available + (r.2).held := by
  cases t <;> simp only [applyResolve] at h <;> (try split_ifs at h) <;> first
    | exact Option.noConfusion h
    | (injection h with h2; rw [← h2]; (try simp only []); omega)

theorem applyChargeback_id {cl : Client} {t : Transaction} {r : Bool × Client}
    (h : applyChargeback cl t = some r) : (r.2).id = cl.id := by
  cases t <;> simp only [applyChargeback] at h <;> (try split_ifs at h) <;> first
    | exact Option.noConfusion h
    | (injection h with h2; rw [← h2])

theorem applyChargeback_locked (cl : Client) (t : Transaction) (h : cl.locked = true) :
    applyChargeback cl t = some (false, cl) := by
  cases t <;> simp only [applyChargeback] <;> (try split_ifs) <;> simp_all

theorem applyChargeback_sum {cl : Client} {t : Transaction} {r : Bool × Client}
    (h : applyChargeback cl t = some r) (hs : cl.total = cl.available + cl.held) :
    (r.2).total = (r.2).available + (r.2).held := by
  cases t <;> simp only [applyChargeback] at h <;> (try split_ifs at h) <;> first
    | exact Option.noConfusion h
    | (injection h with h2; rw [← h2]; (try simp only []); omega)

/-! Lemmas about a single loop iteration of process_transaction_list. -/

theorem stepList_eq_some {s s2 : EngineState} {t : Transaction}
    (h : stepList s t = some s2) :
    ∃ s1, processTransaction t s = some s1 ∧
      s2 = { s1 with operations := s1.operations ++ [t] } := by
  rcases Option.map_eq_some'.mp h with ⟨s1, h1, h2⟩
  exact ⟨s1, h1, h2.symm⟩

/-- A single processed transaction preserves total = available + held for
every client in the ledger (claim C4, one-step version). -/
theorem processTransaction_sum {t : Transaction} {s s1 : EngineState}
    (h : processTransaction t s = some s1)
    (hs : ∀ cl ∈ s.clients, cl.total = cl.available + cl.held) :
    ∀ cl ∈ s1.clients, cl.total = cl.available + cl.held := by
  cases t with
  | DEPOSIT c tx a =>
      simp only [processTransaction] at h
      split at h
      next cl hfc =>
        split at h
        · injection h with h2
          subst h2
          exact hs
        · injection h with h2
          subst h2
          intro cl1 hm
          rcases mem_setFirstClient hm with h3 | h3
          · exact hs _ h3
          · subst h3
            have h4 := hs cl (findClientById_mem hfc)
            simp only []
            omega
      next hfc =>
        injection h with h2
        subst h2
        intro cl1 hm
        rcases List.mem_append.mp hm with h3 | h3
        · exact hs _ h3
        · simp only [List.mem_singleton] at h3
          subst h3
          simp
  | WITHDRAWAL c tx a =>
      simp only [processTransaction] at h
      split at h
      next cl hfc =>
        split_ifs at h
        · injection h with h2
          subst h2
          exact hs
        · injection h with h2
          subst h2
          exact hs
        · injection h with h2
          subst h2
          intro cl1 hm
          rcases mem_setFirstClient hm with h3 | h3
          · exact hs _ h3
          · subst h3
            have h4 := hs cl (findClientById_mem hfc)
            simp only []
            omega
      next hfc =>
        injection h with h2
        subst h2
        exact hs
  | DISPUTE c tx =>
      simp only [processTransaction] at h
      split at h
      next cl hfc =>
        split at h
        next e hop =>
          injection h with h2
          subst h2
          intro cl1 hm
          rcases mem_setFirstClient hm with h3 | h3
          · exact hs _ h3
          · subst h3
            exact applyDispute_sum cl e (hs cl (findClientById_mem hfc))
        next hop =>
          injection h with h2
          subst h2
          exact hs
      next hfc =>
        injection h with h2
        subst h2
        exact hs
  | RESOLVE c tx =>
      simp only [processTransaction] at h
      split at h
      next cl hfc =>
        split at h
        next e hop =>
          split at h
          next har => exact Option.noConfusion h
          next r har =>
            injection h with h2
            subst h2
            intro cl1 hm
            rcases mem_setFirstClient hm with h3 | h3
            · exact hs _ h3
            · subst h3
              exact applyResolve_sum har (hs cl (findClientById_mem hfc))
        next hop =>
          injection h with h2
          subst h2
          exact hs
      next hfc =>
        injection h with h2
        subst h2
        exact hs
  | CHARGEBACK c tx =>
      simp only [processTransaction] at h
      split at h
      next cl hfc =>
        split at h
        next e hop =>
          split at h
          next har => exact Option.noConfusion h
          next r har =>
            injection h with h2
            subst h2
            intro cl1 hm
            rcases mem_setFirstClient hm with h3 | h3
            · exact hs _ h3
            · subst h3
              exact applyChargeback_sum har (hs cl (findClientById_mem hfc))
        next hop =>
          injection h with h2
          subst h2
          exact hs
      next hfc =>
        injection h with h2
        subst h2
        exact hs

/-- The whole processing loop preserves total = available + held. -/
theorem processTransactionList_sum {lst : List Transaction} {s s1 : EngineState}
    (h : processTransactionList lst s = some s1)
    (hs : ∀ cl ∈ s.clients, cl.total = cl.available + cl.held) :
    ∀ cl ∈ s1.clients, cl.total = cl.available + cl.held := by
  induction lst generalizing s with
  | nil =>
      simp only [processTransactionList] at h
      injection h with h2
      subst h2
      exact hs
  | cons t ts ih =>
      simp only [processTransactionList] at h
      cases hstep : stepList s t with
      | none => rw [hstep] at h; exact Option.noConfusion h
      | some s2 =>
          rw [hstep] at h
          rcases stepList_eq_some hstep with ⟨sm, hm, he⟩
          refine ih h ?_
          subst he
          have h5 := processTransaction_sum hm hs
          exact h5

/-- C4: after every processed operation, for every client in the client
ledger, total equals available plus held, exactly, under the exact-arithmetic
embedding of the decimal amounts. Stated for the final state of any engine run
that does not abort; since the intermediate states of a run are themselves
final states of the run on a prefix of the input, this covers every point of
processing. -/
theorem c4_total_eq_available_add_held (lst : List Transaction) (s1 : EngineState)
    (h : runEngine lst = some s1) :
    ∀ cl ∈ s1.clients, cl.total = cl.available + cl.held :=
  processTransactionList_sum h (by intro cl hm; simp [initialState] at hm)

/-- Witness for C4 at a concrete run (one deposit) and a concrete client. -/
theorem c4_total_eq_available_add_held_witness :
    (⟨1, 5, 0, 5, false⟩ : Client).total =
      (⟨1, 5, 0, 5, false⟩ : Client).available + (⟨1, 5, 0, 5, false⟩ : Client).held :=
  c4_total_eq_available_add_held [.DEPOSIT 1 1 5]
    ⟨[⟨1, 5, 0, 5, false⟩], [.DEPOSIT 1 1 5, .DEPOSIT 1 1 5], []⟩ (by decide)
    ⟨1, 5, 0, 5, false⟩ (by decide)

/-- Spec-side definition following the words of the spec for claim C7: the
order of first appearance of each client id anywhere in the input stream.
Used only to compare the code behaviour against that spec sentence. -/
def firstAppearanceOrder (lst : List Transaction) : List Nat :=
  lst.foldl (fun acc t => if clientOf t ∈ acc then acc else acc ++ [clientOf t]) []

/-- C1: refuted on the code. Every loop iteration of process_transaction_list
pushes the raw transaction onto the disputable journal a second time, so a
deposit sits in the journal twice; the first Dispute removes only the first
copy, and a second Dispute referencing the same id finds the remaining copy
and is applied again (here it freezes the 5 deposit twice: held ends at 10).
This contradicts the source comments stating a transaction can be challenged
only once and that withdrawals are registered only when successful. -/
theorem c1_second_dispute_finds_journal_entry :
    (processTransactionList [.DEPOSIT 1 1 5, .DEPOSIT 1 2 5, .DISPUTE 1 1] initialState).map
        (fun s => findOperationById s.operations 1) =
      some (some (.DEPOSIT 1 1 5))
    ∧ runEngine [.DEPOSIT 1 1 5, .DEPOSIT 1 2 5, .DISPUTE 1 1, .DISPUTE 1 1] =
      some ⟨[⟨1, 0, 10, 10, false⟩],
        [.DEPOSIT 1 2 5, .DEPOSIT 1 2 5, .DISPUTE 1 1, .DISPUTE 1 1],
        [.DEPOSIT 1 1 5, .DEPOSIT 1 1 5]⟩ :=
  ⟨by decide, by decide⟩

/-- C2: refuted on the code. After deposit(1,1,5); dispute(1,1), transaction
id 1 is found both in the disputable journal (the duplicate copy pushed by the
loop of process_transaction_list) and in the dispute registry, so the two
collections are not disjoint per transaction id. -/
theorem c2_tx_in_journal_and_registry :
    (runEngine [.DEPOSIT 1 1 5, .DISPUTE 1 1]).map
        (fun s => (findOperationById s.operations 1, findOperationById s.disputes 1)) =
      some (some (.DEPOSIT 1 1 5), some (.DEPOSIT 1 1 5)) := by
  decide

/-- C3: counterexample. After a chargeback locks client 1, the deposit
deposit(1,4,10) is rejected by the handler (balances unchanged), but the loop
of process_transaction_list still appends it to the disputable journal, where
a lookup by transaction id 4 finds it — contradicting the claim that a Deposit
rejected because the client is locked is not journaled. -/
theorem c3_locked_deposit_is_journaled :
    runEngine [.DEPOSIT 1 1 5, .DISPUTE 1 1, .CHARGEBACK 1 1, .DEPOSIT 1 4 10] =
      some ⟨[⟨1, 0, 0, 0, true⟩],
        [.DEPOSIT 1 1 5, .DISPUTE 1 1, .CHARGEBACK 1 1, .DEPOSIT 1 4 10], []⟩
    ∧ findOperationById
        [.DEPOSIT 1 1 5, .DISPUTE 1 1, .CHARGEBACK 1 1, .DEPOSIT 1 4 10] 4 =
      some (.DEPOSIT 1 4 10) :=
  ⟨by decide, by decide⟩

/-- C6: counterexample. deposit(1,1,5); withdrawal(1,2,5); dispute(1,1) is the
exact scenario of the claim (the disputed deposit funds were already
withdrawn). The dispute is rejected by the available-funds check in
apply_dispute: the registry stays empty and available stays 0; it never goes
negative, contradicting the claim that the dispute is accepted. -/
theorem c6_overdrawn_dispute_is_rejected :
    runEngine [.DEPOSIT 1 1 5, .WITHDRAWAL 1 2 5, .DISPUTE 1 1] =
      some ⟨[⟨1, 0, 0, 0, false⟩],
        [.DEPOSIT 1 1 5, .WITHDRAWAL 1 2 5, .WITHDRAWAL 1 2 5, .DISPUTE 1 1], []⟩ := by
  decide

/-- C7: counterexample. Client 2 appears first in the input stream (in a
withdrawal that is rejected because the client is unknown), yet the final
ledger lists client 1 before client 2, because ledger entries are created only
by deposits. The output order is therefore not the first-appearance order of
the client ids in the input. -/
theorem c7_output_order_not_first_appearance :
    (runEngine [.WITHDRAWAL 2 1 5, .DEPOSIT 1 2 5, .DEPOSIT 2 3 5]).map
        (fun s => s.clients.map Client.id) =
      some [1, 2]
    ∧ firstAppearanceOrder [.WITHDRAWAL 2 1 5, .DEPOSIT 1 2 5, .DEPOSIT 2 3 5] = [2, 1] :=
  ⟨by decide, by decide⟩

/-- C9: counterexample. The journal holds two copies of deposit(2,7,3); the
dispute dispute(1,7) matches it with a client-id mismatch and is rejected
(registry stays empty, balances unchanged), yet the number of journal copies
of that entry drops from 2 to 1: the matched entry IS removed from the journal
even on a rejected dispute, contradicting the claim. -/
theorem c9_mismatched_dispute_removes_entry :
    (runEngine [.DEPOSIT 2 7 3, .DEPOSIT 1 8 5]).map
        (fun s => (s.operations.count (.DEPOSIT 2 7 3), s.clients, s.disputes)) =
      some (2, [⟨2, 3, 0, 3, false⟩, ⟨1, 5, 0, 5, false⟩], [])
    ∧ (runEngine [.DEPOSIT 2 7 3, .DEPOSIT 1 8 5, .DISPUTE 1 7]).map
        (fun s => (s.operations.count (.DEPOSIT 2 7 3), s.clients, s.disputes)) =
      some (1, [⟨2, 3, 0, 3, false⟩, ⟨1, 5, 0, 5, false⟩], []) :=
  ⟨by decide, by decide⟩

/-- C10: refuted on the code. Deposits with negative amounts are accepted
unconditionally, which breaks the relation between held and the registry
amounts: after disputing both the -5 deposit and the 10 deposit, held is 5
while the registry entry for transaction 2 carries amount 10, so the
assert!(client.held >= *tx_amount) in apply_resolve fails and the process
panics — modelled here as the run returning none. -/
theorem c10_resolve_assert_fails :
    runEngine [.DEPOSIT 1 1 (-5), .DEPOSIT 1 2 10, .DISPUTE 1 1, .DISPUTE 1 2,
      .RESOLVE 1 2] = none := by
  decide

/-- C6 (amended): an accepted dispute of a deposit never drives available
negative, because apply_dispute requires available >= amount before applying
available -= amount; in particular the withdrawn-funds scenario of the claim
is rejected, not accepted. -/
theorem c6_accepted_deposit_dispute_keeps_available_nonneg
    (cl : Client) (c tx : Nat) (a : ℤ) (cl1 : Client)
    (h : applyDispute cl (.DEPOSIT c tx a) = (true, cl1)) :
    0 ≤ cl1.available := by
  simp only [applyDispute] at h
  split_ifs at h with h1 h2 h3 <;> simp only [Prod.mk.injEq] at h
  · exact absurd h.1 (by simp)
  · exact absurd h.1 (by simp)
  · exact absurd h.1 (by simp)
  · rw [← h.2]
    simp only []
    omega

/-- Witness for the amended C6 at a concrete accepted deposit dispute. -/
theorem c6_accepted_deposit_dispute_keeps_available_nonneg_witness :
    (0 : ℤ) ≤ (⟨1, 0, 5, 5, false⟩ : Client).available :=
  c6_accepted_deposit_dispute_keeps_available_nonneg
    ⟨1, 5, 0, 5, false⟩ 1 1 5 ⟨1, 0, 5, 5, false⟩ (by decide)

/-- C3 (amended): when the client named by an operation exists and is locked,
the Deposit, Withdrawal, Resolve and Chargeback handlers reject and leave the
whole state unchanged, and the Dispute handler rejects leaving clients and
registry unchanged (it may still consume a matched journal entry); the loop of
process_transaction_list nevertheless appends the raw operation to the
disputable journal, so the rejected Deposit mutates nothing but IS journaled
by the loop. -/
theorem c3_locked_client_rejections
    (s : EngineState) (c tx : Nat) (a : ℤ) (cl : Client)
    (hfind : findClientById s.clients c = some cl) (hlock : cl.locked = true) :
    processTransaction (.DEPOSIT c tx a) s = some s
    ∧ processTransaction (.WITHDRAWAL c tx a) s = some s
    ∧ processTransaction (.RESOLVE c tx) s = some s
    ∧ processTransaction (.CHARGEBACK c tx) s = some s
    ∧ (processTransaction (.DISPUTE c tx) s).map
        (fun s1 => (s1.clients, s1.disputes)) = some (s.clients, s.disputes)
    ∧ stepList s (.DEPOSIT c tx a) =
        some { s with operations := s.operations ++ [.DEPOSIT c tx a] } := by
  refine ⟨?_, ?_, ?_, ?_, ?_, ?_⟩
  · simp [processTransaction, hfind, hlock]
  · simp [processTransaction, hfind, hlock]
  · simp only [processTransaction, hfind]
    cases hop : findOperationById s.disputes tx with
    | none => rfl
    | some e =>
        simp [applyResolve_locked cl e hlock, setFirstClient_self hfind]
  · simp only [processTransaction, hfind]
    cases hop : findOperationById s.disputes tx with
    | none => rfl
    | some e =>
        simp [applyChargeback_locked cl e hlock, setFirstClient_self hfind]
  · simp only [processTransaction, hfind]
    cases hop : findOperationById s.operations tx with
    | none => rfl
    | some e =>
        simp [applyDispute_locked cl e hlock, setFirstClient_self hfind]
  · simp [stepList, processTransaction, hfind, hlock]

/-- Witness for the amended C3 at a concrete locked one-client state. -/
theorem c3_locked_client_rejections_witness :
    processTransaction (.DEPOSIT 1 9 5) ⟨[⟨1, 0, 0, 0, true⟩], [], []⟩ =
        some ⟨[⟨1, 0, 0, 0, true⟩], [], []⟩
    ∧ processTransaction (.WITHDRAWAL 1 9 5) ⟨[⟨1, 0, 0, 0, true⟩], [], []⟩ =
        some ⟨[⟨1, 0, 0, 0, true⟩], [], []⟩
    ∧ processTransaction (.RESOLVE 1 9) ⟨[⟨1, 0, 0, 0, true⟩], [], []⟩ =
        some ⟨[⟨1, 0, 0, 0, true⟩], [], []⟩
    ∧ processTransaction (.CHARGEBACK 1 9) ⟨[⟨1, 0, 0, 0, true⟩], [], []⟩ =
        some ⟨[⟨1, 0, 0, 0, true⟩], [], []⟩
    ∧ (processTransaction (.DISPUTE 1 9) ⟨[⟨1, 0, 0, 0, true⟩], [], []⟩).map
        (fun s1 => (s1.clients, s1.disputes)) = some ([⟨1, 0, 0, 0, true⟩], [])
    ∧ stepList ⟨[⟨1, 0, 0, 0, true⟩], [], []⟩ (.DEPOSIT 1 9 5) =
        some ⟨[⟨1, 0, 0, 0, true⟩], [.DEPOSIT 1 9 5], []⟩ :=
  c3_locked_client_rejections ⟨[⟨1, 0, 0, 0, true⟩], [], []⟩ 1 9 5
    ⟨1, 0, 0, 0, true⟩ (by decide) (by decide)

/-- C9 (amended): a dispute that finds a journal entry carrying a different
client id is rejected and leaves the client ledger and the dispute registry
unchanged, but the matched entry IS removed from the journal (the removal in
the dispute handler happens regardless of acceptance). -/
theorem c9_mismatched_dispute_rejected_but_entry_removed
    (s : EngineState) (c tx c1 : Nat) (a : ℤ) (cl : Client)
    (hfind : findClientById s.clients c = some cl) (hne : c1 ≠ c) :
    (findOperationById s.operations tx = some (.DEPOSIT c1 tx a) →
      processTransaction (.DISPUTE c tx) s =
        some ⟨s.clients, removeOperationById s.operations tx, s.disputes⟩)
    ∧ (findOperationById s.operations tx = some (.WITHDRAWAL c1 tx a) →
      processTransaction (.DISPUTE c tx) s =
        some ⟨s.clients, removeOperationById s.operations tx, s.disputes⟩) := by
  have hid := findClientById_id hfind
  constructor
  · intro hop
    simp [processTransaction, hfind, hop, applyDispute, hid, hne,
      setFirstClient_self hfind]
  · intro hop
    simp [processTransaction, hfind, hop, applyDispute, hid, hne,
      setFirstClient_self hfind]

/-- Witness for the amended C9 at a concrete mismatch state. -/
theorem c9_mismatched_dispute_rejected_but_entry_removed_witness :
    (findOperationById [.DEPOSIT 2 7 3] 7 = some (.DEPOSIT 2 7 3) →
      processTransaction (.DISPUTE 1 7) ⟨[⟨1, 5, 0, 5, false⟩], [.DEPOSIT 2 7 3], []⟩ =
        some ⟨[⟨1, 5, 0, 5, false⟩], removeOperationById [.DEPOSIT 2 7 3] 7, []⟩)
    ∧ (findOperationById [.DEPOSIT 2 7 3] 7 = some (.WITHDRAWAL 2 7 3) →
      processTransaction (.DISPUTE 1 7) ⟨[⟨1, 5, 0, 5, false⟩], [.DEPOSIT 2 7 3], []⟩ =
        some ⟨[⟨1, 5, 0, 5, false⟩], removeOperationById [.DEPOSIT 2 7 3] 7, []⟩) :=
  c9_mismatched_dispute_rejected_but_entry_removed
    ⟨[⟨1, 5, 0, 5, false⟩], [.DEPOSIT 2 7 3], []⟩ 1 7 2 3
    ⟨1, 5, 0, 5, false⟩ (by decide) (by decide)

/-- C8: confirmed. When a dispute finds a journaled deposit for the same
unlocked client, it is accepted exactly when available >= amount, and on
acceptance performs available -= amount and held += amount; when it finds a
journaled withdrawal for the same unlocked client it is accepted with no funds
check and performs held += amount and total += amount; in both accepted cases
the entry is appended to the dispute registry (and in every matched case the
entry is removed from the journal). -/
theorem c8_dispute_effects
    (s : EngineState) (c tx : Nat) (a : ℤ) (cl : Client)
    (hfind : findClientById s.clients c = some cl) (hlock : cl.locked = false) :
    (findOperationById s.operations tx = some (.DEPOSIT c tx a) →
      processTransaction (.DISPUTE c tx) s =
        some ⟨setFirstClient s.clients c
            (if cl.available < a then cl
              else ⟨cl.id, cl.available - a, cl.held + a, cl.total, cl.locked⟩),
          removeOperationById s.operations tx,
          if cl.available < a then s.disputes else s.disputes ++ [.DEPOSIT c tx a]⟩)
    ∧ (findOperationById s.operations tx = some (.WITHDRAWAL c tx a) →
      processTransaction (.DISPUTE c tx) s =
        some ⟨setFirstClient s.clients c
            ⟨cl.id, cl.available, cl.held + a, cl.total + a, cl.locked⟩,
          removeOperationById s.operations tx,
          s.disputes ++ [.WITHDRAWAL c tx a]⟩) := by
  have hid := findClientById_id hfind
  constructor
  · intro hop
    by_cases hav : cl.available < a
    · simp [processTransaction, hfind, hop, applyDispute, hid, hlock, hav]
    · simp [processTransaction, hfind, hop, applyDispute, hid, hlock, hav]
  · intro hop
    simp [processTransaction, hfind, hop, applyDispute, hid, hlock]

/-- Witness for C8 at a concrete state (journaled deposit, sufficient funds). -/
theorem c8_dispute_effects_witness :
    (findOperationById [.DEPOSIT 1 1 5] 1 = some (.DEPOSIT 1 1 5) →
      processTransaction (.DISPUTE 1 1) ⟨[⟨1, 5, 0, 5, false⟩], [.DEPOSIT 1 1 5], []⟩ =
        some ⟨setFirstClient [⟨1, 5, 0, 5, false⟩] 1
            (if (5 : ℤ) < 5 then ⟨1, 5, 0, 5, false⟩ else ⟨1, 0, 5, 5, false⟩),
          removeOperationById [.DEPOSIT 1 1 5] 1,
          if (5 : ℤ) < 5 then [] else [] ++ [.DEPOSIT 1 1 5]⟩)
    ∧ (findOperationById [.DEPOSIT 1 1 5] 1 = some (.WITHDRAWAL 1 1 5) →
      processTransaction (.DISPUTE 1 1) ⟨[⟨1, 5, 0, 5, false⟩], [.DEPOSIT 1 1 5], []⟩ =
        some ⟨setFirstClient [⟨1, 5, 0, 5, false⟩] 1 ⟨1, 5, 5, 10, false⟩,
          removeOperationById [.DEPOSIT 1 1 5] 1,
          [] ++ [.WITHDRAWAL 1 1 5]⟩) :=
  c8_dispute_effects ⟨[⟨1, 5, 0, 5, false⟩], [.DEPOSIT 1 1 5], []⟩ 1 1 5
    ⟨1, 5, 0, 5, false⟩ (by decide) (by decide)

/-- Any client that is locked after a non-chargeback step was already locked
(under the same id) before the step: only apply_chargeback sets locked. -/
theorem locked_after_step {t : Transaction} {s s1 : EngineState}
    (h : processTransaction t s = some s1) (hnc : isChargeback t = false) :
    ∀ cl1 ∈ s1.clients, cl1.locked = true →
      ∃ cl ∈ s.clients, cl.id = cl1.id ∧ cl.locked = true := by
  cases t with
  | DEPOSIT c tx a =>
      simp only [processTransaction] at h
      split at h
      next cl hfc =>
        split at h
        · injection h with h2
          subst h2
          intro cl1 hm hl
          exact ⟨cl1, hm, rfl, hl⟩
        next hl0 =>
          injection h with h2
          subst h2
          intro cl1 hm hl
          rcases mem_setFirstClient hm with h3 | h3
          · exact ⟨cl1, h3, rfl, hl⟩
          · subst h3
            simp only [] at hl
            simp [hl] at hl0
      next hfc =>
        injection h with h2
        subst h2
        intro cl1 hm hl
        rcases List.mem_append.mp hm with h3 | h3
        · exact ⟨cl1, h3, rfl, hl⟩
        · simp only [List.mem_singleton] at h3
          subst h3
          simp at hl
  | WITHDRAWAL c tx a =>
      simp only [processTransaction] at h
      split at h
      next cl hfc =>
        split_ifs at h with hl0 hav
        · injection h with h2
          subst h2
          intro cl1 hm hl
          exact ⟨cl1, hm, rfl, hl⟩
        · injection h with h2
          subst h2
          intro cl1 hm hl
          exact ⟨cl1, hm, rfl, hl⟩
        · injection h with h2
          subst h2
          intro cl1 hm hl
          rcases mem_setFirstClient hm with h3 | h3
          · exact ⟨cl1, h3, rfl, hl⟩
          · subst h3
            simp only [] at hl
            simp [hl] at hl0
      next hfc =>
        injection h with h2
        subst h2
        intro cl1 hm hl
        exact ⟨cl1, hm, rfl, hl⟩
  | DISPUTE c tx =>
      simp only [processTransaction] at h
      split at h
      next cl hfc =>
        split at h
        next e hop =>
          injection h with h2
          subst h2
          intro cl1 hm hl
          rcases mem_setFirstClient hm with h3 | h3
          · exact ⟨cl1, h3, rfl, hl⟩
          · subst h3
            refine ⟨cl, findClientById_mem hfc, ?_, ?_⟩
            · exact (applyDispute_id cl e).symm
            · rw [← applyDispute_locked_field cl e]
              exact hl
        next hop =>
          injection h with h2
          subst h2
          intro cl1 hm hl
          exact ⟨cl1, hm, rfl, hl⟩
      next hfc =>
        injection h with h2
        subst h2
        intro cl1 hm hl
        exact ⟨cl1, hm, rfl, hl⟩
  | RESOLVE c tx =>
      simp only [processTransaction] at h
      split at h
      next cl hfc =>
        split at h
        next e hop =>
          split at h
          next har => exact Option.noConfusion h
          next r har =>
            injection h with h2
            subst h2
            intro cl1 hm hl
            rcases mem_setFirstClient hm with h3 | h3
            · exact ⟨cl1, h3, rfl, hl⟩
            · subst h3
              refine ⟨cl, findClientById_mem hfc, ?_, ?_⟩
              · exact (applyResolve_id har).symm
              · rw [← applyResolve_locked_field har]
                exact hl
        next hop =>
          injection h with h2
          subst h2
          intro cl1 hm hl
          exact ⟨cl1, hm, rfl, hl⟩
      next hfc =>
        injection h with h2
        subst h2
        intro cl1 hm hl
        exact ⟨cl1, hm, rfl, hl⟩
  | CHARGEBACK c tx => simp [isChargeback] at hnc

/-- If the first ledger record for client id c is locked, then one processed
step leaves every ledger record with id c unchanged, and an operation naming
client c leaves the dispute registry unchanged. -/
theorem locked_client_frozen {t : Transaction} {s s1 : EngineState} {c : Nat} {cl : Client}
    (h : processTransaction t s = some s1)
    (hfind : findClientById s.clients c = some cl) (hlock : cl.locked = true) :
    s1.clients.filter (fun x => x.id == c) = s.clients.filter (fun x => x.id == c)
    ∧ (clientOf t = c → s1.disputes = s.disputes) := by
  cases t with
  | DEPOSIT c1 tx a =>
      by_cases hcc : c1 = c
      · subst hcc
        have hx : processTransaction (.DEPOSIT c1 tx a) s = some s := by
          simp [processTransaction, hfind, hlock]
        rw [hx] at h
        injection h with h2
        subst h2
        exact ⟨rfl, fun _ => rfl⟩
      · simp only [processTransaction] at h
        split at h
        next cl2 hfc1 =>
          split at h
          · injection h with h2
            subst h2
            exact ⟨rfl, fun _ => rfl⟩
          · injection h with h2
            subst h2
            refine ⟨?_, fun _ => rfl⟩
            refine filter_setFirstClient ?_ hcc
            show cl2.id = c1
            exact findClientById_id hfc1
        next hfc1 =>
          injection h with h2
          subst h2
          refine ⟨?_, fun _ => rfl⟩
          simp [List.filter_append, hcc]
  | WITHDRAWAL c1 tx a =>
      by_cases hcc : c1 = c
      · subst hcc
        have hx : processTransaction (.WITHDRAWAL c1 tx a) s = some s := by
          simp [processTransaction, hfind, hlock]
        rw [hx] at h
        injection h with h2
        subst h2
        exact ⟨rfl, fun _ => rfl⟩
      · simp only [processTransaction] at h
        split at h
        next cl2 hfc1 =>
          split_ifs at h
          · injection h with h2
            subst h2
            exact ⟨rfl, fun _ => rfl⟩
          · injection h with h2
            subst h2
            exact ⟨rfl, fun _ => rfl⟩
          · injection h with h2
            subst h2
            refine ⟨?_, fun _ => rfl⟩
            refine filter_setFirstClient ?_ hcc
            show cl2.id = c1
            exact findClientById_id hfc1
        next hfc1 =>
          injection h with h2
          subst h2
          exact ⟨rfl, fun _ => rfl⟩
  | DISPUTE c1 tx =>
      by_cases hcc : c1 = c
      · subst hcc
        cases hop : findOperationById s.operations tx with
        | none =>
            have hx : processTransaction (.DISPUTE c1 tx) s = some s := by
              simp [processTransaction, hfind, hop]
            rw [hx] at h
            injection h with h2
            subst h2
            exact ⟨rfl, fun _ => rfl⟩
        | some e =>
            have hx : processTransaction (.DISPUTE c1 tx) s =
                some ⟨s.clients, removeOperationById s.operations tx, s.disputes⟩ := by
              simp [processTransaction, hfind, hop, applyDispute_locked cl e hlock,
                setFirstClient_self hfind]
            rw [hx] at h
            injection h with h2
            subst h2
            exact ⟨rfl, fun _ => rfl⟩
      · simp only [processTransaction] at h
        split at h
        next cl2 hfc1 =>
          split at h
          next e hop =>
            injection h with h2
            subst h2
            refine ⟨?_, fun he => absurd (by simpa [clientOf] using he) hcc⟩
            have hid : ((applyDispute cl2 e).2).id = c1 := by
              rw [applyDispute_id]
              exact findClientById_id hfc1
            exact filter_setFirstClient hid hcc
          next hop =>
            injection h with h2
            subst h2
            exact ⟨rfl, fun _ => rfl⟩
        next hfc1 =>
          injection h with h2
          subst h2
          exact ⟨rfl, fun _ => rfl⟩
  | RESOLVE c1 tx =>
      by_cases hcc : c1 = c
      · subst hcc
        cases hop : findOperationById s.disputes tx with
        | none =>
            have hx : processTransaction (.RESOLVE c1 tx) s = some s := by
              simp [processTransaction, hfind, hop]
            rw [hx] at h
            injection h with h2
            subst h2
            exact ⟨rfl, fun _ => rfl⟩
        | some e =>
            have hx : processTransaction (.RESOLVE c1 tx) s = some s := by
              simp [processTransaction, hfind, hop, applyResolve_locked cl e hlock,
                setFirstClient_self hfind]
            rw [hx] at h
            injection h with h2
            subst h2
            exact ⟨rfl, fun _ => rfl⟩
      · simp only [processTransaction] at h
        split at h
        next cl2 hfc1 =>
          split at h
          next e hop =>
            split at h
            next har => exact Option.noConfusion h
            next r har =>
              injection h with h2
              subst h2
              refine ⟨?_, fun he => absurd (by simpa [clientOf] using he) hcc⟩
              have hid : (r.2).id = c1 := by
                rw [applyResolve_id har]
                exact findClientById_id hfc1
              exact filter_setFirstClient hid hcc
          next hop =>
            injection h with h2
            subst h2
            exact ⟨rfl, fun _ => rfl⟩
        next hfc1 =>
          injection h with h2
          subst h2
          exact ⟨rfl, fun _ => rfl⟩
  | CHARGEBACK c1 tx =>
      by_cases hcc : c1 = c
      · subst hcc
        cases hop : findOperationById s.disputes tx with
        | none =>
            have hx : processTransaction (.CHARGEBACK c1 tx) s = some s := by
              simp [processTransaction, hfind, hop]
            rw [hx] at h
            injection h with h2
            subst h2
            exact ⟨rfl, fun _ => rfl⟩
        | some e =>
            have hx : processTransaction (.CHARGEBACK c1 tx) s = some s := by
              simp [processTransaction, hfind, hop, applyChargeback_locked cl e hlock,
                setFirstClient_self hfind]
            rw [hx] at h
            injection h with h2
            subst h2
            exact ⟨rfl, fun _ => rfl⟩
      · simp only [processTransaction] at h
        split at h
        next cl2 hfc1 =>
          split at h
          next e hop =>
            split at h
            next har => exact Option.noConfusion h
            next r har =>
              injection h with h2
              subst h2
              refine ⟨?_, fun he => absurd (by simpa [clientOf] using he) hcc⟩
              have hid : (r.2).id = c1 := by
                rw [applyChargeback_id har]
                exact findClientById_id hfc1
              exact filter_setFirstClient hid hcc
          next hop =>
            injection h with h2
            subst h2
            exact ⟨rfl, fun _ => rfl⟩
        next hfc1 =>
          injection h with h2
          subst h2
          exact ⟨rfl, fun _ => rfl⟩

/-- C5: confirmed. Chargeback is the only operation that sets locked (every
client locked after a non-chargeback step was already locked under the same
id); and once the (first) ledger record for a client id is locked, any
processed operation leaves every ledger record with that id — available, held,
total and locked included — unchanged, and an operation naming that client is
rejected: it also leaves the dispute registry unchanged. -/
theorem c5_lock_semantics (s : EngineState) (t : Transaction) (s1 : EngineState)
    (hstep : processTransaction t s = some s1) :
    (∀ cl1 ∈ s1.clients, cl1.locked = true →
      isChargeback t = true ∨ ∃ cl ∈ s.clients, cl.id = cl1.id ∧ cl.locked = true)
    ∧ (∀ c cl, findClientById s.clients c = some cl → cl.locked = true →
      s1.clients.filter (fun x => x.id == c) = s.clients.filter (fun x => x.id == c)
      ∧ (clientOf t = c → s1.disputes = s.disputes)) := by
  constructor
  · intro cl1 hm hl
    by_cases hc : isChargeback t = true
    · exact Or.inl hc
    · exact Or.inr (locked_after_step hstep (by simpa using hc) cl1 hm hl)
  · intro c cl hfind hlock
    exact locked_client_frozen hstep hfind hlock

/-- Witness for C5: a deposit processed against a locked one-client ledger. -/
theorem c5_lock_semantics_witness :
    (∀ cl1 ∈ (⟨[⟨1, 0, 0, 0, true⟩], [], []⟩ : EngineState).clients, cl1.locked = true →
      isChargeback (.DEPOSIT 1 9 5) = true ∨
        ∃ cl ∈ (⟨[⟨1, 0, 0, 0, true⟩], [], []⟩ : EngineState).clients,
          cl.id = cl1.id ∧ cl.locked = true)
    ∧ (∀ c cl,
      findClientById (⟨[⟨1, 0, 0, 0, true⟩], [], []⟩ : EngineState).clients c = some cl →
      cl.locked = true →
      (⟨[⟨1, 0, 0, 0, true⟩], [], []⟩ : EngineState).clients.filter (fun x => x.id == c) =
        (⟨[⟨1, 0, 0, 0, true⟩], [], []⟩ : EngineState).clients.filter (fun x => x.id == c)
      ∧ (clientOf (.DEPOSIT 1 9 5) = c →
        (⟨[⟨1, 0, 0, 0, true⟩], [], []⟩ : EngineState).disputes =
          (⟨[⟨1, 0, 0, 0, true⟩], [], []⟩ : EngineState).disputes)) :=
  c5_lock_semantics ⟨[⟨1, 0, 0, 0, true⟩], [], []⟩ (.DEPOSIT 1 9 5)
    ⟨[⟨1, 0, 0, 0, true⟩], [], []⟩ (by decide)

/-- The order in which Deposit operations first reference each client id,
starting from an already-present list of ids; by the amended claim C7 this is
exactly the ledger (and hence output) order. -/
def depositAppearanceOrder : List Transaction → List Nat → List Nat
  | [], acc => acc
  | .DEPOSIT c _ _ :: ts, acc =>
      depositAppearanceOrder ts (if c ∈ acc then acc else acc ++ [c])
  | .WITHDRAWAL _ _ _ :: ts, acc => depositAppearanceOrder ts acc
  | .DISPUTE _ _ :: ts, acc => depositAppearanceOrder ts acc
  | .RESOLVE _ _ :: ts, acc => depositAppearanceOrder ts acc
  | .CHARGEBACK _ _ :: ts, acc => depositAppearanceOrder ts acc

/-- One deposit step extends the id list by the client id exactly when the id
is new; the ledger ids are otherwise preserved. -/
theorem processTransaction_map_id_deposit {c tx : Nat} {a : ℤ} {s s1 : EngineState}
    (h : processTransaction (.DEPOSIT c tx a) s = some s1) :
    s1.clients.map Client.id =
      (if c ∈ s.clients.map Client.id then s.clients.map Client.id
        else s.clients.map Client.id ++ [c]) := by
  simp only [processTransaction] at h
  split at h
  next cl hfc =>
    have hmem : c ∈ s.clients.map Client.id := by
      refine List.mem_map.mpr ⟨cl, findClientById_mem hfc, findClientById_id hfc⟩
    rw [if_pos hmem]
    split at h
    · injection h with h2
      subst h2
      rfl
    · injection h with h2
      subst h2
      refine map_id_setFirstClient ?_
      show cl.id = c
      exact findClientById_id hfc
  next hfc =>
    have hmem : c ∉ s.clients.map Client.id := by
      intro hcon
      rcases List.mem_map.mp hcon with ⟨cl, hcl, hid⟩
      exact findClientById_none hfc cl hcl hid
    rw [if_neg hmem]
    injection h with h2
    subst h2
    simp

/-- A non-deposit step never changes the list of ledger ids. -/
theorem processTransaction_map_id_other {t : Transaction} {s s1 : EngineState}
    (h : processTransaction t s = some s1)
    (hnd : ∀ c tx a, t ≠ .DEPOSIT c tx a) :
    s1.clients.map Client.id = s.clients.map Client.id := by
  cases t with
  | DEPOSIT c tx a => exact absurd rfl (hnd c tx a)
  | WITHDRAWAL c tx a =>
      simp only [processTransaction] at h
      split at h
      next cl hfc =>
        split_ifs at h
        · injection h with h2; subst h2; rfl
        · injection h with h2; subst h2; rfl
        · injection h with h2
          subst h2
          refine map_id_setFirstClient ?_
          show cl.id = c
          exact findClientById_id hfc
      next hfc =>
        injection h with h2; subst h2; rfl
  | DISPUTE c tx =>
      simp only [processTransaction] at h
      split at h
      next cl hfc =>
        split at h
        next e hop =>
          injection h with h2
          subst h2
          refine map_id_setFirstClient ?_
          rw [applyDispute_id]
          exact findClientById_id hfc
        next hop =>
          injection h with h2; subst h2; rfl
      next hfc =>
        injection h with h2; subst h2; rfl
  | RESOLVE c tx =>
      simp only [processTransaction] at h
      split at h
      next cl hfc =>
        split at h
        next e hop =>
          split at h
          next har => exact Option.noConfusion h
          next r har =>
            injection h with h2
            subst h2
            refine map_id_setFirstClient ?_
            rw [applyResolve_id har]
            exact findClientById_id hfc
        next hop =>
          injection h with h2; subst h2; rfl
      next hfc =>
        injection h with h2; subst h2; rfl
  | CHARGEBACK c tx =>
      simp only [processTransaction] at h
      split at h
      next cl hfc =>
        split at h
        next e hop =>
          split at h
          next har => exact Option.noConfusion h
          next r har =>
            injection h with h2
            subst h2
            refine map_id_setFirstClient ?_
            rw [applyChargeback_id har]
            exact findClientById_id hfc
        next hop =>
          injection h with h2; subst h2; rfl
      next hfc =>
        injection h with h2; subst h2; rfl

/-- The processing loop turns the ledger id order into depositAppearanceOrder. -/
theorem processTransactionList_map_id {lst : List Transaction} {s s1 : EngineState}
    (h : processTransactionList lst s = some s1) :
    s1.clients.map Client.id = depositAppearanceOrder lst (s.clients.map Client.id) := by
  induction lst generalizing s with
  | nil =>
      simp only [processTransactionList] at h
      injection h with h2
      subst h2
      rfl
  | cons t ts ih =>
      simp only [processTransactionList] at h
      cases hstep : stepList s t with
      | none => rw [hstep] at h; exact Option.noConfusion h
      | some s2 =>
          rw [hstep] at h
          rcases stepList_eq_some hstep with ⟨sm, hm, he⟩
          have hids : s2.clients.map Client.id = sm.clients.map Client.id := by
            subst he; rfl
          cases t with
          | DEPOSIT c tx a =>
              have h3 := processTransaction_map_id_deposit hm
              rw [ih h, hids, h3]
              rfl
          | WITHDRAWAL c tx a =>
              have h3 := processTransaction_map_id_other hm (by intro c1 tx1 a1 hcon; cases hcon)
              rw [ih h, hids, h3]
              rfl
          | DISPUTE c tx =>
              have h3 := processTransaction_map_id_other hm (by intro c1 tx1 a1 hcon; cases hcon)
              rw [ih h, hids, h3]
              rfl
          | RESOLVE c tx =>
              have h3 := processTransaction_map_id_other hm (by intro c1 tx1 a1 hcon; cases hcon)
              rw [ih h, hids, h3]
              rfl
          | CHARGEBACK c tx =>
              have h3 := processTransaction_map_id_other hm (by intro c1 tx1 a1 hcon; cases hcon)
              rw [ih h, hids, h3]
              rfl

/-- C7 (amended): the final client ledger — and therefore the output — lists
clients in the order of the first Deposit operation referencing each client
id, because only deposits ever create ledger entries; ids whose first
appearance is in a non-deposit operation do not enter the ledger there. -/
theorem c7_output_order_is_first_deposit_order (lst : List Transaction) (s1 : EngineState)
    (h : runEngine lst = some s1) :
    s1.clients.map Client.id = depositAppearanceOrder lst [] := by
  have h2 := processTransactionList_map_id h
  simpa [initialState] using h2

/-- Witness for the amended C7 at a concrete run. -/
theorem c7_output_order_is_first_deposit_order_witness :
    (⟨[⟨1, 5, 0, 5, false⟩, ⟨2, 5, 0, 5, false⟩],
        [.WITHDRAWAL 2 1 5, .DEPOSIT 1 2 5, .DEPOSIT 1 2 5, .DEPOSIT 2 3 5, .DEPOSIT 2 3 5],
        []⟩ : EngineState).clients.map Client.id =
      depositAppearanceOrder [.WITHDRAWAL 2 1 5, .DEPOSIT 1 2 5, .DEPOSIT 2 3 5] [] :=
  c7_output_order_is_first_deposit_order
    [.WITHDRAWAL 2 1 5, .DEPOSIT 1 2 5, .DEPOSIT 2 3 5]
    ⟨[⟨1, 5, 0, 5, false⟩, ⟨2, 5, 0, 5, false⟩],
      [.WITHDRAWAL 2 1 5, .DEPOSIT 1 2 5, .DEPOSIT 1 2 5, .DEPOSIT 2 3 5, .DEPOSIT 2 3 5],
      []⟩ (by decide)

end Transact
